import Mathlib

/-
  Verification development for the wmf backend ("find my device" service).

  The development shallowly embeds the HAWK-style request signing helpers
  (package wmf, hawk.go) and the postgres storage layer for nonces, pending
  commands and positions (package storage, postgres.go).

  Modelling conventions:
  * Go strings are lists of characters (GoStr); all inputs of interest are
    ASCII, so the byte view of a Go string is the list of code points.
  * The database tables touched by the claims (nonce, pendingCommands,
    position) are modelled as lists of row structures; each SQL statement of
    the source becomes an explicit list transformation, in the order the
    source issues the statements.
  * current_timestamp / time.Now() are threaded as explicit integer-second
    parameters; random values produced by util.GenUUID4 and crypto/rand are
    threaded as explicit string parameters.
  * The standard-library digests the source calls (crypto/md5, crypto/sha256,
    encoding/base64, encoding/hex) are implemented concretely below over Nat
    with explicit reduction modulo 2^32.
-/

/-- Go strings, modelled as lists of characters. -/
abbrev GoStr := List Char

/-- Shorthand turning a Lean string literal into a GoStr. -/
def gs (s : String) : GoStr := s.data

/-- Bytes of a Go string (ASCII inputs: code point = byte). -/
def strBytes (s : GoStr) : List Nat := s.map Char.toNat

/- ---------------------------------------------------------------------
   32-bit helpers for the digest implementations
   --------------------------------------------------------------------- -/

/-- 2^32, the modulus for 32-bit machine arithmetic. -/
def w32 : Nat := 4294967296

/-- 32-bit modular addition. -/
def add32 (a b : Nat) : Nat := (a + b) % w32

/-- Rotate a 32-bit word right by n bit positions (division form). -/
def rotr32 (x n : Nat) : Nat := x / 2 ^ n + x % 2 ^ n * 2 ^ (32 - n)

/-- Rotate a 32-bit word left by n bit positions (division form). -/
def rotl32 (x n : Nat) : Nat := x % 2 ^ (32 - n) * 2 ^ n + x / 2 ^ (32 - n)

/-- Shift a 32-bit word right by n bit positions. -/
def shr32 (x n : Nat) : Nat := x / 2 ^ n

/-- Bitwise complement on 32 bits. -/
def not32 (x : Nat) : Nat := Nat.xor x (w32 - 1)

/-- Three-way xor. -/
def xor3 (a b c : Nat) : Nat := Nat.xor (Nat.xor a b) c

/-- Split a list into chunks of k elements (fuel-driven; callers pass the
list length as fuel, which suffices for k greater than zero). -/
def chunksOf : Nat → Nat → List α → List (List α)
  | 0, _, _ => []
  | _, _, [] => []
  | Nat.succ fuel, k, l => l.take k :: chunksOf fuel k (l.drop k)

/-- Big-endian 32-bit word from four bytes. -/
def word32BE : List Nat → Nat
  | [a, b, c, d] => ((a * 256 + b) * 256 + c) * 256 + d
  | _ => 0

/-- Little-endian 32-bit word from four bytes. -/
def word32LE : List Nat → Nat
  | [a, b, c, d] => a + 256 * (b + 256 * (c + 256 * d))
  | _ => 0

/-- Big-endian bytes of a 32-bit word. -/
def w32BytesBE (x : Nat) : List Nat :=
  [x / 16777216 % 256, x / 65536 % 256, x / 256 % 256, x % 256]

/-- Little-endian bytes of a 32-bit word. -/
def w32BytesLE (x : Nat) : List Nat :=
  [x % 256, x / 256 % 256, x / 65536 % 256, x / 16777216 % 256]

/-- Big-endian bytes of a 64-bit length field. -/
def w64BytesBE (x : Nat) : List Nat :=
  w32BytesBE (x / w32 % w32) ++ w32BytesBE (x % w32)

/-- Little-endian bytes of a 64-bit length field. -/
def w64BytesLE (x : Nat) : List Nat :=
  w32BytesLE (x % w32) ++ w32BytesLE (x / w32 % w32)

/-- Number of zero bytes of Merkle-Damgard padding for a message of length L:
the padded prefix L + 1 + z must be 56 modulo 64. -/
def mdZeroPad (L : Nat) : Nat := (119 - L % 64) % 64

/- ---------------------------------------------------------------------
   SHA-256 (FIPS 180-4), as used by crypto/sha256
   --------------------------------------------------------------------- -/

/-- Round constant table of SHA-256 (fractional cube roots of the first 64 primes). -/
def sha256K : List Nat :=
  [1116352408, 1899447441, 3049323471, 3921009573,
   961987163, 1508970993, 2453635748, 2870763221,
   3624381080, 310598401, 607225278, 1426881987,
   1925078388, 2162078206, 2614888103, 3248222580,
   3835390401, 4022224774, 264347078, 604807628,
   770255983, 1249150122, 1555081692, 1996064986,
   2554220882, 2821834349, 2952996808, 3210313671,
   3336571891, 3584528711, 113926993, 338241895,
   666307205, 773529912, 1294757372, 1396182291,
   1695183700, 1986661051, 2177026350, 2456956037,
   2730485921, 2820302411, 3259730800, 3345764771,
   3516065817, 3600352804, 4094571909, 275423344,
   430227734, 506948616, 659060556, 883997877,
   958139571, 1322822218, 1537002063, 1747873779,
   1955562222, 2024104815, 2227730452, 2361852424,
   2428436474, 2756734187, 3204031479, 3329325298]

/-- Starting hash words of SHA-256. -/
def sha256Init : List Nat :=
  [1779033703, 3144134277, 1013904242, 2773480762,
   1359893119, 2600822924, 528734635, 1541459225]

/-- SHA-256 padding: one 128 byte, zeros, then the 64-bit big-endian bit
length. -/
def sha256Pad (msg : List Nat) : List Nat :=
  msg ++ 128 :: List.replicate (mdZeroPad msg.length) 0 ++ w64BytesBE (8 * msg.length)

/-- Next word of the SHA-256 message schedule, from the words produced so
far. -/
def sha256ExtendStep (w : List Nat) : Nat :=
  let k := w.length
  let x15 := w.getD (k - 15) 0
  let x2 := w.getD (k - 2) 0
  let s0 := xor3 (rotr32 x15 7) (rotr32 x15 18) (shr32 x15 3)
  let s1 := xor3 (rotr32 x2 17) (rotr32 x2 19) (shr32 x2 10)
  (w.getD (k - 16) 0 + s0 + w.getD (k - 7) 0 + s1) % w32

/-- Extend the 16 words of a block to the 64 words of the schedule. -/
def sha256Extend : Nat → List Nat → List Nat
  | 0, w => w
  | Nat.succ n, w => sha256Extend n (w ++ [sha256ExtendStep w])

/-- SHA-256 compression state. -/
structure Sha256State where
  a : Nat
  b : Nat
  c : Nat
  d : Nat
  e : Nat
  f : Nat
  g : Nat
  hh : Nat

/-- One SHA-256 compression round with a (constant, schedule-word) pair. -/
def sha256Round (st : Sha256State) (kw : Nat × Nat) : Sha256State :=
  let s1 := xor3 (rotr32 st.e 6) (rotr32 st.e 11) (rotr32 st.e 25)
  let ch := Nat.xor (Nat.land st.e st.f) (Nat.land (not32 st.e) st.g)
  let temp1 := (st.hh + s1 + ch + kw.1 + kw.2) % w32
  let s0 := xor3 (rotr32 st.a 2) (rotr32 st.a 13) (rotr32 st.a 22)
  let maj := xor3 (Nat.land st.a st.b) (Nat.land st.a st.c) (Nat.land st.b st.c)
  let temp2 := (s0 + maj) % w32
  ⟨(temp1 + temp2) % w32, st.a, st.b, st.c, (st.d + temp1) % w32, st.e, st.f, st.g⟩

/-- Process one 64-byte block against the running hash value. -/
def sha256Block (hs : List Nat) (block : List Nat) : List Nat :=
  let ws := sha256Extend 48 ((chunksOf 64 4 block).map word32BE)
  let st0 : Sha256State :=
    ⟨hs.getD 0 0, hs.getD 1 0, hs.getD 2 0, hs.getD 3 0,
     hs.getD 4 0, hs.getD 5 0, hs.getD 6 0, hs.getD 7 0⟩
  let st := (sha256K.zip ws).foldl sha256Round st0
  [add32 (hs.getD 0 0) st.a, add32 (hs.getD 1 0) st.b,
   add32 (hs.getD 2 0) st.c, add32 (hs.getD 3 0) st.d,
   add32 (hs.getD 4 0) st.e, add32 (hs.getD 5 0) st.f,
   add32 (hs.getD 6 0) st.g, add32 (hs.getD 7 0) st.hh]

/-- SHA-256 digest (32 bytes) of a byte list. -/
def sha256 (msg : List Nat) : List Nat :=
  let padded := sha256Pad msg
  ((chunksOf padded.length 64 padded).foldl sha256Block sha256Init).flatMap w32BytesBE

/- ---------------------------------------------------------------------
   MD5 (RFC 1321), as used by crypto/md5
   --------------------------------------------------------------------- -/

/-- The 64 MD5 sine-table constants. -/
def md5K : List Nat :=
  [3614090360, 3905402710, 606105819, 3250441966,
   4118548399, 1200080426, 2821735955, 4249261313,
   1770035416, 2336552879, 4294925233, 2304563134,
   1804603682, 4254626195, 2792965006, 1236535329,
   4129170786, 3225465664, 643717713, 3921069994,
   3593408605, 38016083, 3634488961, 3889429448,
   568446438, 3275163606, 4107603335, 1163531501,
   2850285829, 4243563512, 1735328473, 2368359562,
   4294588738, 2272392833, 1839030562, 4259657740,
   2763975236, 1272893353, 4139469664, 3200236656,
   681279174, 3936430074, 3572445317, 76029189,
   3654602809, 3873151461, 530742520, 3299628645,
   4096336452, 1126891415, 2878612391, 4237533241,
   1700485571, 2399980690, 4293915773, 2240044497,
   1873313359, 4264355552, 2734768916, 1309151649,
   4149444226, 3174756917, 718787259, 3951481745]

/-- The MD5 per-round left-rotation amounts. -/
def md5S : List Nat :=
  [7, 12, 17, 22, 7, 12, 17, 22, 7, 12, 17, 22, 7, 12, 17, 22,
   5, 9, 14, 20, 5, 9, 14, 20, 5, 9, 14, 20, 5, 9, 14, 20,
   4, 11, 16, 23, 4, 11, 16, 23, 4, 11, 16, 23, 4, 11, 16, 23,
   6, 10, 15, 21, 6, 10, 15, 21, 6, 10, 15, 21, 6, 10, 15, 21]

/-- MD5 compression state. -/
structure Md5State where
  a : Nat
  b : Nat
  c : Nat
  d : Nat

/-- The MD5 nonlinear function for step i. -/
def md5F (i b c d : Nat) : Nat :=
  if i < 16 then Nat.lor (Nat.land b c) (Nat.land (not32 b) d)
  else if i < 32 then Nat.lor (Nat.land d b) (Nat.land (not32 d) c)
  else if i < 48 then xor3 b c d
  else Nat.xor c (Nat.lor b (not32 d))

/-- The MD5 message-word index for step i. -/
def md5G (i : Nat) : Nat :=
  if i < 16 then i
  else if i < 32 then (5 * i + 1) % 16
  else if i < 48 then (3 * i + 5) % 16
  else 7 * i % 16

/-- One MD5 step, applied to the state for step index i. -/
def md5Round (m : List Nat) (st : Md5State) (i : Nat) : Md5State :=
  let t := (md5F i st.b st.c st.d + st.a + md5K.getD i 0 + m.getD (md5G i) 0) % w32
  ⟨st.d, (st.b + rotl32 t (md5S.getD i 0)) % w32, st.b, st.c⟩

/-- Process one 64-byte block against the running MD5 state. -/
def md5Block (h : Md5State) (block : List Nat) : Md5State :=
  let m := (chunksOf 64 4 block).map word32LE
  let st := (List.range 64).foldl (md5Round m) h
  ⟨add32 h.a st.a, add32 h.b st.b, add32 h.c st.c, add32 h.d st.d⟩

/-- MD5 padding: one 128 byte, zeros, then the 64-bit little-endian bit
length. -/
def md5Pad (msg : List Nat) : List Nat :=
  msg ++ 128 :: List.replicate (mdZeroPad msg.length) 0 ++ w64BytesLE (8 * msg.length)

/-- MD5 digest (16 bytes) of a byte list. -/
def md5 (msg : List Nat) : List Nat :=
  let padded := md5Pad msg
  let st := (chunksOf padded.length 64 padded).foldl md5Block
    ⟨1732584193, 4023233417, 2562383102, 271733878⟩
  w32BytesLE st.a ++ w32BytesLE st.b ++ w32BytesLE st.c ++ w32BytesLE st.d

/- ---------------------------------------------------------------------
   encoding/hex and encoding/base64 (standard alphabet)
   --------------------------------------------------------------------- -/

/-- Lower-case hexadecimal digit for a value below 16. -/
def hexDigit (n : Nat) : Char := (gs "0123456789abcdef").getD n '0'

/-- Two hexadecimal digits of a byte. -/
def hexByte (b : Nat) : GoStr := [hexDigit (b / 16), hexDigit (b % 16)]

/-- hex.EncodeToString over a byte list. -/
def hexEncode (bs : List Nat) : GoStr := bs.flatMap hexByte

/-- The standard base64 alphabet. -/
def b64Alphabet : GoStr :=
  gs "ABCDEFGHIJKLMNOPQRSTUVWXYZabcdefghijklmnopqrstuvwxyz0123456789+/"

/-- base64 character for a value below 64. -/
def b64Char (n : Nat) : Char := b64Alphabet.getD n 'A'

/-- Encode a group of at most three bytes into four base64 characters, with
trailing padding for short groups. -/
def b64Group : List Nat → GoStr
  | [a] => [b64Char (a / 4), b64Char (a % 4 * 16), '=', '=']
  | [a, b] => [b64Char (a / 4), b64Char (a % 4 * 16 + b / 16), b64Char (b % 16 * 4), '=']
  | [a, b, c] =>
    [b64Char (a / 4), b64Char (a % 4 * 16 + b / 16),
     b64Char (b % 16 * 4 + c / 64), b64Char (c % 64)]
  | _ => []

/-- base64.StdEncoding.EncodeToString over a byte list. -/
def base64Encode (bs : List Nat) : GoStr := (chunksOf bs.length 3 bs).flatMap b64Group

/- ---------------------------------------------------------------------
   package wmf, hawk.go
   --------------------------------------------------------------------- -/

/-- Minimal model of fmt.Sprintf for formats that use only the verb for a
string argument, as every Sprintf call of hawk.go does. -/
def goSprintf : GoStr → List GoStr → GoStr
  | [], _ => []
  | '%' :: 's' :: rest, a :: args => a ++ goSprintf rest args
  | '%' :: 's' :: rest, [] => gs "%!s(MISSING)" ++ goSprintf rest []
  | c :: rest, args => c :: goSprintf rest args

/-- AsHeader of hawk.go: the rendering of the outbound Authorization header
from the six field values of the Hawk struct (Id argument, Time, Nonce,
Extra, Hash, Signature).  The format string is the one of the source; the
side path that first fills in an empty Signature via GenerateSignature is
outside this model, which takes the rendered values as inputs. -/
def AsHeader (id time nonce extra hash mac : GoStr) : GoStr :=
  goSprintf (gs "Hawk id=\"%s\", ts=\"%s\", nonce=\"%s\" ext=\"%s\", hash=\"%s\" mac=\"%s\"")
    [id, time, nonce, extra, hash, mac]

/-- Modelled from the spec: the header shape the spec and claim describe,
with all six key-value pairs separated by comma-space. -/
def headerClaimShape (id time nonce extra hash mac : GoStr) : GoStr :=
  gs "Hawk id=\"" ++ id ++ gs "\", ts=\"" ++ time ++ gs "\", nonce=\"" ++ nonce ++
    gs "\", ext=\"" ++ extra ++ gs "\", hash=\"" ++ hash ++ gs "\", mac=\"" ++ mac ++ gs "\""

/-- Go strings.Split(s, ";") keeps the prefix before the first semicolon as
its first element; genHash uses only that element. -/
def splitSemi (s : GoStr) : GoStr := s.takeWhile (fun c => c ≠ ';')

/-- Go strings.Replace of single characters, applied to the body by genHash:
backslashes are doubled first, then newlines become a backslash-n pair. -/
def escapeBody (body : GoStr) : GoStr :=
  (body.flatMap fun c => if c = '\\' then ['\\', '\\'] else [c]).flatMap
    fun c => if c = '\n' then ['\\', 'n'] else [c]

/-- genHash of hawk.go: the payload hash over the marshalled string
hawk.1.payload, newline, content type truncated at the first semicolon,
newline, escaped body, newline.  The contentType argument is the value of
the Content-Type request header (empty when the header is absent). -/
def genHash (contentType body : GoStr) : GoStr :=
  base64Encode (sha256 (strBytes
    (gs "hawk.1.payload" ++ '\n' ::
      splitSemi (if contentType = [] then gs "text/plain" else contentType) ++ '\n' ::
      escapeBody body ++ ['\n'])))

/-- Split a Go string at the first occurrence of a separator character:
strings.SplitN(s, sep, 2) yields two pieces exactly when the result here is
some pair, and the one-piece (malformed) result otherwise. -/
def splitFirst (sep : Char) : GoStr → Option (GoStr × GoStr)
  | [] => none
  | c :: rest =>
    if c = sep then some ([], rest)
    else (splitFirst sep rest).map (fun p => (c :: p.1, p.2))

/-- Go strings.Split(s, ", "), the element separator ParseAuthHeader uses. -/
def splitCommaSpace : GoStr → List GoStr
  | [] => [[]]
  | ',' :: ' ' :: rest => [] :: splitCommaSpace rest
  | c :: rest =>
    match splitCommaSpace rest with
    | [] => [[c]]
    | seg :: segs => (c :: seg) :: segs

/-- Go strings.ToLower for the ASCII inputs of interest. -/
def toLowerStr (s : GoStr) : GoStr := s.map Char.toLower

/-- Go strings.Trim(s, quote): strip every leading and trailing double
quote. -/
def trimQuotes (s : GoStr) : GoStr :=
  ((s.dropWhile (fun c => c = '"')).reverse.dropWhile (fun c => c = '"')).reverse

/-- The error sentinels of hawk.go that ParseAuthHeader can return. -/
inductive HawkError where
  | NoAuth : HawkError
  | NotHawkAuth : HawkError
deriving DecidableEq

/-- The fields of the Hawk struct that ParseAuthHeader fills from the
header (the request-derived Path, Host and Port are outside this model). -/
structure HawkFields where
  Id : GoStr
  Time : GoStr
  Nonce : GoStr
  Extra : GoStr
  Hash : GoStr
  Signature : GoStr
deriving DecidableEq

/-- A Hawk struct with all header fields empty. -/
def emptyHawkFields : HawkFields := ⟨[], [], [], [], [], []⟩

/-- One iteration of the element loop of ParseAuthHeader: split the element
at the first equals sign (fewer than two pieces: continue), strip quotes
from the value, and assign it by lower-cased key, ignoring unknown keys. -/
def applyKV (h : HawkFields) (elem : GoStr) : HawkFields :=
  match splitFirst '=' elem with
  | none => h
  | some (k, v) =>
    let val := trimQuotes v
    let key := toLowerStr k
    if key = gs "id" then { h with Id := val }
    else if key = gs "ts" then { h with Time := val }
    else if key = gs "nonce" then { h with Nonce := val }
    else if key = gs "ext" then { h with Extra := val }
    else if key = gs "hash" then { h with Hash := val }
    else if key = gs "mac" then { h with Signature := val }
    else h

/-- ParseAuthHeader of hawk.go over the Authorization header value (the
empty string when the header is absent).  The result none models a Go
runtime panic: the source slices auth with constant bounds 4 and 5, and a
Go string slice with an upper bound beyond the string length panics. -/
def ParseAuthHeader (auth : GoStr) : Option (Except HawkError HawkFields) :=
  if auth = [] then some (Except.error HawkError.NoAuth)
  else if auth.length < 4 then none
  else if toLowerStr (auth.take 4) ≠ gs "hawk" then some (Except.error HawkError.NotHawkAuth)
  else if auth.length < 5 then none
  else some (Except.ok ((splitCommaSpace (auth.drop 5)).foldl applyKV emptyHawkFields))

/- ---------------------------------------------------------------------
   package storage, postgres.go: nonce table
   --------------------------------------------------------------------- -/

/-- One row of the nonce table: key, val and issuance time (integer unix
seconds standing for the timestamp column). -/
structure NonceRow where
  key : GoStr
  val : GoStr
  time : Int
deriving DecidableEq

/-- genSig of postgres.go: the lower-case hex MD5 digest of key dot val. -/
def genSig (key val : GoStr) : GoStr := hexEncode (md5 (strBytes (key ++ '.' :: val)))

/-- GetNonce of postgres.go: insert the row (key, val, now) and return key
dot signature.  The two fresh UUID4 tokens from util.GenUUID4 are the key
and val parameters. -/
def GetNonce (key val : GoStr) (now : Int) (s : List NonceRow) : GoStr × List NonceRow :=
  (key ++ '.' :: genSig key val, s ++ [⟨key, val, now⟩])

/-- The garbage-collection statement of CheckNonce: delete every nonce row
whose time is before now minus five minutes (300 seconds). -/
def purgeNonces (now : Int) : List NonceRow → List NonceRow
  | [] => []
  | r :: rest =>
    if r.time < now - 300 then purgeNonces now rest else r :: purgeNonces now rest

/-- The lookup statement of CheckNonce: the val of the first row whose key
matches (select val from nonce where key matches, limit one). -/
def lookupNonce (key : GoStr) : List NonceRow → Option GoStr
  | [] => none
  | r :: rest => if r.key = key then some r.val else lookupNonce key rest

/-- The consumption statement of CheckNonce: delete every row whose key
matches. -/
def deleteNonce (key : GoStr) : List NonceRow → List NonceRow
  | [] => []
  | r :: rest => if r.key = key then deleteNonce key rest else r :: deleteNonce key rest

/-- CheckNonce of postgres.go along its storage-success paths: purge old
nonces, split the input at the first dot (malformed input: not valid, no
error), look the key up (absent: not valid), and otherwise delete the rows
of the key and compare the recomputed signature with the claimed one. -/
def CheckNonce (nonce : GoStr) (now : Int) (s : List NonceRow) : Bool × List NonceRow :=
  let s1 := purgeNonces now s
  match splitFirst '.' nonce with
  | none => (false, s1)
  | some (key, sig) =>
    match lookupNonce key s1 with
    | none => (false, s1)
    | some v => (genSig key v == sig, deleteNonce key s1)

/-- CheckNonce of postgres.go with the storage outcomes made explicit.  The
result is none when the call panics instead of returning: when the lookup
query fails, dbh.Query hands back a nil rows handle together with the
error, and the already deferred rows.Close dereferences that nil handle.
When rows.Scan fails the function returns not valid together with the scan
error and consumes nothing. -/
def CheckNonceRun (queryFails scanFails : Bool) (nonce : GoStr) (now : Int)
    (s : List NonceRow) : Option (Bool × Option Unit × List NonceRow) :=
  let s1 := purgeNonces now s
  match splitFirst '.' nonce with
  | none => some (false, none, s1)
  | some (key, sig) =>
    if queryFails then none
    else
      match lookupNonce key s1 with
      | none => some (false, none, s1)
      | some v =>
        if scanFails then some (false, some (), s1)
        else some (genSig key v == sig, none, deleteNonce key s1)

/- ---------------------------------------------------------------------
   package storage, postgres.go: pendingCommands table
   --------------------------------------------------------------------- -/

/-- One row of the pendingCommands table.  The id column (serial primary
key, the column GetPending selects and deletes by) is a natural number. -/
structure CmdRow where
  id : Nat
  deviceId : GoStr
  ctype : GoStr
  cmd : GoStr
  time : Int
deriving DecidableEq

/-- A row id not used by any row of the table, standing for the next value
of the serial id column. -/
def freshId (s : List CmdRow) : Nat := (s.map CmdRow.id).foldr max 0 + 1

/-- The update statement of StoreCommand: set time and cmd on every row
whose deviceId and type match. -/
def updateCmds (devId cType command : GoStr) (now : Int) : List CmdRow → List CmdRow
  | [] => []
  | r :: rest =>
    (if r.deviceId = devId ∧ r.ctype = cType then { r with cmd := command, time := now } else r)
      :: updateCmds devId cType command now rest

/-- RowsAffected of that update: the number of rows whose deviceId and type
match. -/
def countMatching (devId cType : GoStr) : List CmdRow → Nat
  | [] => 0
  | r :: rest =>
    (if r.deviceId = devId ∧ r.ctype = cType then 1 else 0) + countMatching devId cType rest

/-- StoreCommand of postgres.go: update the (deviceId, type) row in place;
when zero rows were affected, insert a new row with the given payload and
time instead. -/
def StoreCommand (devId command cType : GoStr) (now : Int) (s : List CmdRow) : List CmdRow :=
  let updated := updateCmds devId cType command now s
  if countMatching devId cType s = 0 then
    updated ++ [⟨freshId s, devId, cType, command, now⟩]
  else updated

/-- The rows of one device, in table order (the where clause of the select
of GetPending). -/
def selectDev (devId : GoStr) : List CmdRow → List CmdRow
  | [] => []
  | r :: rest =>
    if r.deviceId = devId then r :: selectDev devId rest else selectDev devId rest

/-- The rows of one (deviceId, type) key, in table order. -/
def selectKey (devId cType : GoStr) : List CmdRow → List CmdRow
  | [] => []
  | r :: rest =>
    if r.deviceId = devId ∧ r.ctype = cType then r :: selectKey devId cType rest
    else selectKey devId cType rest

/-- Order by time, limit one: the first row of minimal time. -/
def minByTime : List CmdRow → Option CmdRow
  | [] => none
  | r :: rest =>
    match minByTime rest with
    | none => some r
    | some b => if b.time < r.time then some b else some r

/-- The delete statement of GetPending: remove the rows of the selected
id. -/
def deleteById (i : Nat) : List CmdRow → List CmdRow
  | [] => []
  | r :: rest => if r.id = i then deleteById i rest else r :: deleteById i rest

/-- GetPending of postgres.go along its storage-success path: select the
oldest pending command of the device (order by time, limit one), delete it
by id, and return its cmd and type; with no pending row it returns two
empty strings and no error.  The side effects outside the pendingCommands
table (the timing metric and the Touch of deviceInfo.lastexchange) are not
part of the modelled state. -/
def GetPending (devId : GoStr) (s : List CmdRow) : GoStr × GoStr × List CmdRow :=
  match minByTime (selectDev devId s) with
  | none => ([], [], s)
  | some r => (r.cmd, r.ctype, deleteById r.id s)

/-- GetPending of postgres.go with the outcome of the select made explicit.
The result is none when the call panics instead of returning: the source
never inspects the error dbh.Query returns, and on a failed query it calls
rows.Next on the nil rows handle, which dereferences nil. -/
def GetPendingRun (queryFails : Bool) (devId : GoStr) (s : List CmdRow) :
    Option (GoStr × GoStr × List CmdRow) :=
  if queryFails then none else some (GetPending devId s)

/- ---------------------------------------------------------------------
   package storage, postgres.go: position table
   --------------------------------------------------------------------- -/

/-- The Position argument of SetDeviceLocation (float64 fields in the
source, modelled as rationals). -/
structure Position where
  Latitude : ℚ
  Longitude : ℚ
  Altitude : ℚ
  Accuracy : ℚ
  Time : Int
deriving DecidableEq

/-- One row of the position table.  The coordinates hold the float32
narrowing of the float64 inputs; the narrowing itself is threaded as the
f32 parameter of SetDeviceLocation. -/
structure PosRow where
  deviceId : GoStr
  time : Int
  latitude : ℚ
  longitude : ℚ
  altitude : ℚ
  accuracy : ℚ
deriving DecidableEq

/-- PurgePosition of postgres.go: delete every position row of the
device. -/
def PurgePosition (devId : GoStr) : List PosRow → List PosRow
  | [] => []
  | r :: rest =>
    if r.deviceId = devId then PurgePosition devId rest else r :: PurgePosition devId rest

/-- SetDeviceLocation of postgres.go: purge the existing position rows of
the device, then insert one row carrying the current time and the float32
narrowing (the f32 parameter) of the four coordinates.  The Time field of
the Position argument is not stored; the insert uses dbNow. -/
def SetDeviceLocation (f32 : ℚ → ℚ) (devId : GoStr) (position : Position) (now : Int)
    (s : List PosRow) : List PosRow :=
  PurgePosition devId s ++
    [⟨devId, now, f32 position.Latitude, f32 position.Longitude,
      f32 position.Altitude, f32 position.Accuracy⟩]

/-- The position rows of one device, in table order. -/
def selectPos (devId : GoStr) : List PosRow → List PosRow
  | [] => []
  | r :: rest =>
    if r.deviceId = devId then r :: selectPos devId rest else selectPos devId rest

deriving instance DecidableEq for Except

/- ---------------------------------------------------------------------
   Helper lemmas about the nonce-table operations
   --------------------------------------------------------------------- -/

/-- Splitting at the first separator recovers the two pieces when the first
piece is free of the separator. -/
theorem splitFirst_append (sep : Char) (k sig : GoStr) (h : sep ∉ k) :
    splitFirst sep (k ++ sep :: sig) = some (k, sig) := by
  induction k with
  | nil => simp [splitFirst]
  | cons c rest ih =>
    have hc : c ≠ sep := by
      intro hh
      exact h (hh ▸ List.mem_cons_self c rest)
    simp only [List.cons_append, splitFirst, if_neg hc, List.append_eq]
    rw [ih (fun hm => h (List.mem_cons_of_mem c hm))]
    rfl

/-- Garbage collection distributes over concatenated table states. -/
theorem purgeNonces_append (now : Int) (l1 l2 : List NonceRow) :
    purgeNonces now (l1 ++ l2) = purgeNonces now l1 ++ purgeNonces now l2 := by
  induction l1 with
  | nil => simp [purgeNonces]
  | cons a rest ih =>
    by_cases hc : a.time < now - 300
    · simp [purgeNonces, hc, ih]
    · simp [purgeNonces, hc, ih]

/-- A row surviving garbage collection was in the table. -/
theorem mem_purgeNonces {now : Int} {l : List NonceRow} {r : NonceRow}
    (h : r ∈ purgeNonces now l) : r ∈ l := by
  induction l with
  | nil => simp [purgeNonces] at h
  | cons a rest ih =>
    by_cases hc : a.time < now - 300
    · simp only [purgeNonces, if_pos hc] at h
      exact List.mem_cons_of_mem a (ih h)
    · simp only [purgeNonces, if_neg hc] at h
      rcases List.mem_cons.mp h with h | h
      · subst h; exact List.mem_cons_self _ _
      · exact List.mem_cons_of_mem a (ih h)

/-- No row surviving garbage collection is older than the five-minute
window. -/
theorem purgeNonces_time {now : Int} {l : List NonceRow} {r : NonceRow}
    (h : r ∈ purgeNonces now l) : ¬r.time < now - 300 := by
  induction l with
  | nil => simp [purgeNonces] at h
  | cons a rest ih =>
    by_cases hc : a.time < now - 300
    · simp only [purgeNonces, if_pos hc] at h
      exact ih h
    · simp only [purgeNonces, if_neg hc] at h
      rcases List.mem_cons.mp h with h | h
      · subst h; exact hc
      · exact ih h

/-- Lookup misses a table none of whose rows carry the key. -/
theorem lookupNonce_eq_none {k : GoStr} {l : List NonceRow}
    (h : ∀ r ∈ l, r.key ≠ k) : lookupNonce k l = none := by
  induction l with
  | nil => rfl
  | cons a rest ih =>
    have ha : a.key ≠ k := h a (List.mem_cons_self a rest)
    simp only [lookupNonce, if_neg ha]
    exact ih fun r hr => h r (List.mem_cons_of_mem a hr)

/-- Lookup finds a freshly appended row when no earlier row carries its
key. -/
theorem lookupNonce_append_last {k : GoStr} {l : List NonceRow} (v : GoStr) (t : Int)
    (h : ∀ r ∈ l, r.key ≠ k) : lookupNonce k (l ++ [⟨k, v, t⟩]) = some v := by
  induction l with
  | nil => simp [lookupNonce]
  | cons a rest ih =>
    have ha : a.key ≠ k := h a (List.mem_cons_self a rest)
    simp only [List.cons_append, lookupNonce, if_neg ha]
    exact ih fun r hr => h r (List.mem_cons_of_mem a hr)

/-- Consumption removes every row of the key. -/
theorem deleteNonce_key {k : GoStr} {l : List NonceRow} {r : NonceRow}
    (h : r ∈ deleteNonce k l) : r.key ≠ k := by
  induction l with
  | nil => simp [deleteNonce] at h
  | cons a rest ih =>
    by_cases hc : a.key = k
    · simp only [deleteNonce, if_pos hc] at h
      exact ih h
    · simp only [deleteNonce, if_neg hc] at h
      rcases List.mem_cons.mp h with h | h
      · subst h; exact hc
      · exact ih h

/-- C2: a nonce issued by GetNonce with a fresh dot-free key verifies once
and only once: the first CheckNonce within the five-minute window returns
valid and leaves no row of the key behind, and a second CheckNonce with the
same nonce string returns not valid. -/
theorem checkNonce_single_use (k v : GoStr) (tI tC tC2 : Int) (s : List NonceRow)
    (hdot : '.' ∉ k)
    (hfresh : ∀ r ∈ s, r.key ≠ k)
    (hwin : ¬tI < tC - 300) :
    (CheckNonce (GetNonce k v tI s).1 tC (GetNonce k v tI s).2).1 = true ∧
    (∀ r ∈ (CheckNonce (GetNonce k v tI s).1 tC (GetNonce k v tI s).2).2, r.key ≠ k) ∧
    (CheckNonce (GetNonce k v tI s).1 tC2
      (CheckNonce (GetNonce k v tI s).1 tC (GetNonce k v tI s).2).2).1 = false := by
  have hsplit : splitFirst '.' (k ++ '.' :: genSig k v) = some (k, genSig k v) :=
    splitFirst_append '.' k (genSig k v) hdot
  have hpurge : purgeNonces tC (s ++ [⟨k, v, tI⟩]) = purgeNonces tC s ++ [⟨k, v, tI⟩] := by
    rw [purgeNonces_append]
    simp [purgeNonces, hwin]
  have hkeys : ∀ r ∈ purgeNonces tC s, r.key ≠ k := fun r hr => hfresh r (mem_purgeNonces hr)
  have hlook : lookupNonce k (purgeNonces tC s ++ [⟨k, v, tI⟩]) = some v :=
    lookupNonce_append_last v tI hkeys
  have hfst : (CheckNonce (GetNonce k v tI s).1 tC (GetNonce k v tI s).2) =
      (true, deleteNonce k (purgeNonces tC s ++ [⟨k, v, tI⟩])) := by
    simp only [GetNonce, CheckNonce, hsplit, hpurge, hlook, beq_self_eq_true]
  refine ⟨by rw [hfst], fun r hr => deleteNonce_key (hfst ▸ hr), ?_⟩
  rw [hfst]
  have hkeys2 : ∀ r ∈ purgeNonces tC2 (deleteNonce k (purgeNonces tC s ++ [⟨k, v, tI⟩])),
      r.key ≠ k := fun r hr => deleteNonce_key (mem_purgeNonces hr)
  simp only [GetNonce, CheckNonce, hsplit, lookupNonce_eq_none hkeys2]

/-- Closed witness for checkNonce_single_use at a concrete fresh nonce over
the empty store. -/
theorem checkNonce_single_use_witness :
    ('.' ∉ gs "k1") ∧ (∀ r ∈ ([] : List NonceRow), r.key ≠ gs "k1") ∧
      ¬(0 : Int) < 5 - 300 ∧
    ((CheckNonce (GetNonce (gs "k1") (gs "v1") 0 []).1 5 (GetNonce (gs "k1") (gs "v1") 0 []).2).1 = true ∧
     (∀ r ∈ (CheckNonce (GetNonce (gs "k1") (gs "v1") 0 []).1 5 (GetNonce (gs "k1") (gs "v1") 0 []).2).2,
        r.key ≠ gs "k1") ∧
     (CheckNonce (GetNonce (gs "k1") (gs "v1") 0 []).1 9
        (CheckNonce (GetNonce (gs "k1") (gs "v1") 0 []).1 5 (GetNonce (gs "k1") (gs "v1") 0 []).2).2).1 = false) :=
  ⟨by decide, by decide, by decide,
    checkNonce_single_use (gs "k1") (gs "v1") 0 5 9 [] (by decide) (by decide) (by decide)⟩

/-- C3: a nonce whose stored rows of its key all date from more than five
minutes before the current time is rejected by CheckNonce with no error
outcome, the resulting table is exactly the garbage-collected one, and no
row older than five minutes survives that collection. -/
theorem checkNonce_expired (k sig : GoStr) (tC : Int) (s : List NonceRow)
    (hdot : '.' ∉ k)
    (hexp : ∀ r ∈ s, r.key = k → r.time < tC - 300) :
    (CheckNonce (k ++ '.' :: sig) tC s).1 = false ∧
    (CheckNonce (k ++ '.' :: sig) tC s).2 = purgeNonces tC s ∧
    ∀ r ∈ purgeNonces tC s, ¬r.time < tC - 300 := by
  have hkeys : ∀ r ∈ purgeNonces tC s, r.key ≠ k := by
    intro r hr hk
    exact purgeNonces_time hr (hexp r (mem_purgeNonces hr) hk)
  have hsplit : splitFirst '.' (k ++ '.' :: sig) = some (k, sig) :=
    splitFirst_append '.' k sig hdot
  simp only [CheckNonce, hsplit, lookupNonce_eq_none hkeys]
  exact ⟨trivial, trivial, fun r hr => purgeNonces_time hr⟩

/-- Closed witness for checkNonce_expired: a six-minute-old nonce row is
rejected. -/
theorem checkNonce_expired_witness :
    ('.' ∉ gs "k2") ∧
      (∀ r ∈ [(⟨gs "k2", gs "v2", 0⟩ : NonceRow)], r.key = gs "k2" → r.time < 360 - 300) ∧
    ((CheckNonce (gs "k2" ++ '.' :: gs "sig") 360 [⟨gs "k2", gs "v2", 0⟩]).1 = false ∧
     (CheckNonce (gs "k2" ++ '.' :: gs "sig") 360 [⟨gs "k2", gs "v2", 0⟩]).2 =
       purgeNonces 360 [⟨gs "k2", gs "v2", 0⟩] ∧
     ∀ r ∈ purgeNonces 360 [(⟨gs "k2", gs "v2", 0⟩ : NonceRow)], ¬r.time < 360 - 300) :=
  ⟨by decide, by decide,
    checkNonce_expired (gs "k2") (gs "sig") 360 [⟨gs "k2", gs "v2", 0⟩] (by decide) (by decide)⟩

/-- C7: CheckNonce fails closed on input without a dot separator, returning
not valid with no error after the garbage-collection pass; but when the
lookup query itself fails the call panics on the deferred nil rows handle
instead of returning the error. -/
theorem checkNonce_malformed_and_query_failure :
    CheckNonceRun false false (gs "garbage") 400 [⟨gs "k", gs "v", 0⟩] = some (false, none, []) ∧
    CheckNonceRun true false (gs "k.sig") 0 [] = none :=
  ⟨rfl, rfl⟩

/- ---------------------------------------------------------------------
   Helper lemmas about the pendingCommands and position operations
   --------------------------------------------------------------------- -/

/-- The update of StoreCommand leaves a table without rows of the device
unchanged. -/
theorem updateCmds_nomatch {devId cType cmd : GoStr} {now : Int} {l : List CmdRow}
    (h : ∀ r ∈ l, r.deviceId ≠ devId) : updateCmds devId cType cmd now l = l := by
  induction l with
  | nil => rfl
  | cons a rest ih =>
    have ha : ¬(a.deviceId = devId ∧ a.ctype = cType) :=
      fun hand => h a (List.mem_cons_self a rest) hand.1
    simp only [updateCmds, if_neg ha]
    rw [ih fun r hr => h r (List.mem_cons_of_mem a hr)]

/-- The update of StoreCommand distributes over concatenated table
states. -/
theorem updateCmds_append (devId cType cmd : GoStr) (now : Int) (l1 l2 : List CmdRow) :
    updateCmds devId cType cmd now (l1 ++ l2) =
      updateCmds devId cType cmd now l1 ++ updateCmds devId cType cmd now l2 := by
  induction l1 with
  | nil => rfl
  | cons a rest ih => simp only [List.cons_append, updateCmds, List.append_eq, ih]

/-- RowsAffected is zero on a table without rows of the device. -/
theorem countMatching_zero {devId cType : GoStr} {l : List CmdRow}
    (h : ∀ r ∈ l, r.deviceId ≠ devId) : countMatching devId cType l = 0 := by
  induction l with
  | nil => rfl
  | cons a rest ih =>
    have ha : ¬(a.deviceId = devId ∧ a.ctype = cType) :=
      fun hand => h a (List.mem_cons_self a rest) hand.1
    simp only [countMatching, if_neg ha, Nat.zero_add]
    exact ih fun r hr => h r (List.mem_cons_of_mem a hr)

/-- RowsAffected adds up over concatenated table states. -/
theorem countMatching_append (devId cType : GoStr) (l1 l2 : List CmdRow) :
    countMatching devId cType (l1 ++ l2) =
      countMatching devId cType l1 + countMatching devId cType l2 := by
  induction l1 with
  | nil => simp [countMatching]
  | cons a rest ih =>
    simp only [List.cons_append, countMatching, List.append_eq, ih]
    exact (Nat.add_assoc _ _ _).symm

/-- Selection by key distributes over concatenated table states. -/
theorem selectKey_append (devId cType : GoStr) (l1 l2 : List CmdRow) :
    selectKey devId cType (l1 ++ l2) = selectKey devId cType l1 ++ selectKey devId cType l2 := by
  induction l1 with
  | nil => rfl
  | cons a rest ih =>
    by_cases hc : a.deviceId = devId ∧ a.ctype = cType
    · simp only [List.cons_append, selectKey, if_pos hc, List.append_eq, ih]
    · simp only [List.cons_append, selectKey, if_neg hc, List.append_eq, ih]

/-- Selection by key is empty on a table without rows of the device. -/
theorem selectKey_eq_nil {devId cType : GoStr} {l : List CmdRow}
    (h : ∀ r ∈ l, r.deviceId ≠ devId) : selectKey devId cType l = [] := by
  induction l with
  | nil => rfl
  | cons a rest ih =>
    have ha : ¬(a.deviceId = devId ∧ a.ctype = cType) :=
      fun hand => h a (List.mem_cons_self a rest) hand.1
    simp only [selectKey, if_neg ha]
    exact ih fun r hr => h r (List.mem_cons_of_mem a hr)

/-- Selection by device distributes over concatenated table states. -/
theorem selectDev_append (devId : GoStr) (l1 l2 : List CmdRow) :
    selectDev devId (l1 ++ l2) = selectDev devId l1 ++ selectDev devId l2 := by
  induction l1 with
  | nil => rfl
  | cons a rest ih =>
    by_cases hc : a.deviceId = devId
    · simp only [List.cons_append, selectDev, if_pos hc, List.append_eq, ih]
    · simp only [List.cons_append, selectDev, if_neg hc, List.append_eq, ih]

/-- Selection by device is empty on a table without rows of the device. -/
theorem selectDev_eq_nil {devId : GoStr} {l : List CmdRow}
    (h : ∀ r ∈ l, r.deviceId ≠ devId) : selectDev devId l = [] := by
  induction l with
  | nil => rfl
  | cons a rest ih =>
    have ha : a.deviceId ≠ devId := h a (List.mem_cons_self a rest)
    simp only [selectDev, if_neg ha]
    exact ih fun r hr => h r (List.mem_cons_of_mem a hr)

/-- Deletion by id distributes over concatenated table states. -/
theorem deleteById_append (i : Nat) (l1 l2 : List CmdRow) :
    deleteById i (l1 ++ l2) = deleteById i l1 ++ deleteById i l2 := by
  induction l1 with
  | nil => rfl
  | cons a rest ih =>
    by_cases hc : a.id = i
    · simp only [List.cons_append, deleteById, if_pos hc, List.append_eq, ih]
    · simp only [List.cons_append, deleteById, if_neg hc, List.append_eq, ih]

/-- Deletion by an id no row carries leaves the table unchanged. -/
theorem deleteById_nomatch {i : Nat} {l : List CmdRow}
    (h : ∀ r ∈ l, r.id ≠ i) : deleteById i l = l := by
  induction l with
  | nil => rfl
  | cons a rest ih =>
    have ha : a.id ≠ i := h a (List.mem_cons_self a rest)
    simp only [deleteById, if_neg ha]
    rw [ih fun r hr => h r (List.mem_cons_of_mem a hr)]

/-- Every member of a list of naturals is bounded by its maximum fold. -/
theorem le_foldr_max {n : Nat} {l : List Nat} (h : n ∈ l) : n ≤ l.foldr max 0 := by
  induction l with
  | nil => simp at h
  | cons a rest ih =>
    rcases List.mem_cons.mp h with h | h
    · subst h; exact Nat.le_max_left _ _
    · exact Nat.le_trans (ih h) (Nat.le_max_right _ _)

/-- The id of the serial column is fresh: no existing row carries it. -/
theorem freshId_not_used {l : List CmdRow} {r : CmdRow} (h : r ∈ l) : r.id ≠ freshId l :=
  Nat.ne_of_lt (Nat.lt_succ_of_le (le_foldr_max (List.mem_map_of_mem CmdRow.id h)))

/-- C5 (amended): over a store state without pending rows for the device,
two StoreCommand calls with the same key and different payloads leave
exactly one row for the key, carrying the second payload; GetPending then
returns that payload and its type, and afterwards no row of the key
remains. -/
theorem storeCommand_upsert_getPending (devId cType p1 p2 : GoStr) (t1 t2 : Int)
    (s : List CmdRow)
    (hdev : ∀ r ∈ s, r.deviceId ≠ devId) (_hp : p1 ≠ p2) :
    selectKey devId cType (StoreCommand devId p2 cType t2 (StoreCommand devId p1 cType t1 s)) =
      [⟨freshId s, devId, cType, p2, t2⟩] ∧
    (GetPending devId (StoreCommand devId p2 cType t2 (StoreCommand devId p1 cType t1 s))).1 = p2 ∧
    (GetPending devId (StoreCommand devId p2 cType t2 (StoreCommand devId p1 cType t1 s))).2.1 = cType ∧
    selectKey devId cType
      (GetPending devId (StoreCommand devId p2 cType t2 (StoreCommand devId p1 cType t1 s))).2.2 = [] := by
  have h1 : StoreCommand devId p1 cType t1 s = s ++ [⟨freshId s, devId, cType, p1, t1⟩] := by
    unfold StoreCommand
    rw [countMatching_zero hdev, updateCmds_nomatch hdev, if_pos rfl]
  have h2 : StoreCommand devId p2 cType t2 (s ++ [⟨freshId s, devId, cType, p1, t1⟩]) =
      s ++ [⟨freshId s, devId, cType, p2, t2⟩] := by
    unfold StoreCommand
    rw [countMatching_append, countMatching_zero hdev, updateCmds_append,
      updateCmds_nomatch hdev]
    simp [countMatching, updateCmds]
  have h3 : selectKey devId cType (s ++ [(⟨freshId s, devId, cType, p2, t2⟩ : CmdRow)]) =
      [⟨freshId s, devId, cType, p2, t2⟩] := by
    rw [selectKey_append, selectKey_eq_nil hdev]
    simp [selectKey]
  have h4 : GetPending devId (s ++ [(⟨freshId s, devId, cType, p2, t2⟩ : CmdRow)]) =
      (p2, cType, s) := by
    unfold GetPending
    rw [selectDev_append, selectDev_eq_nil hdev]
    simp only [List.nil_append, selectDev, if_pos rfl, minByTime]
    rw [deleteById_append, deleteById_nomatch (fun r hr => freshId_not_used hr)]
    simp [deleteById]
  rw [h1, h2, h3, h4]
  exact ⟨rfl, rfl, rfl, selectKey_eq_nil hdev⟩

/-- Closed witness for storeCommand_upsert_getPending over the empty
store. -/
theorem storeCommand_upsert_getPending_witness :
    (∀ r ∈ ([] : List CmdRow), r.deviceId ≠ gs "dev") ∧ gs "a" ≠ gs "b" ∧
    (selectKey (gs "dev") (gs "lock")
        (StoreCommand (gs "dev") (gs "b") (gs "lock") 2
          (StoreCommand (gs "dev") (gs "a") (gs "lock") 1 [])) =
      [⟨freshId [], gs "dev", gs "lock", gs "b", 2⟩] ∧
     (GetPending (gs "dev") (StoreCommand (gs "dev") (gs "b") (gs "lock") 2
        (StoreCommand (gs "dev") (gs "a") (gs "lock") 1 []))).1 = gs "b" ∧
     (GetPending (gs "dev") (StoreCommand (gs "dev") (gs "b") (gs "lock") 2
        (StoreCommand (gs "dev") (gs "a") (gs "lock") 1 []))).2.1 = gs "lock" ∧
     selectKey (gs "dev") (gs "lock")
       (GetPending (gs "dev") (StoreCommand (gs "dev") (gs "b") (gs "lock") 2
         (StoreCommand (gs "dev") (gs "a") (gs "lock") 1 []))).2.2 = []) :=
  ⟨by decide, by decide,
    storeCommand_upsert_getPending (gs "dev") (gs "lock") (gs "a") (gs "b") 1 2 []
      (by decide) (by decide)⟩

/-- C5 counterexample: over a store state that already holds a pending
command of another type for the device, the claimed property fails: after
the two StoreCommand calls, GetPending returns the older other-type payload
rather than the second payload of the stored key. -/
theorem storeCommand_every_state_counterexample :
    (GetPending (gs "dev") (StoreCommand (gs "dev") (gs "p2") (gs "lock") 2
      (StoreCommand (gs "dev") (gs "p1") (gs "lock") 1
        [⟨1, gs "dev", gs "erase", gs "p0", 0⟩]))).1 ≠ gs "p2" := by decide

/-- C8: GetPending on a device with no pending command returns two empty
strings and no error; but when the select itself fails the call panics on
the nil rows handle (the query error is never checked) instead of
returning a non-nil error. -/
theorem getPending_absent_vs_query_failure :
    GetPendingRun false (gs "dev1") [] = some ([], [], []) ∧
    GetPendingRun true (gs "dev1") [] = none :=
  ⟨rfl, rfl⟩

/-- Position rows of a device all vanish under PurgePosition. -/
theorem selectPos_purge (devId : GoStr) (l : List PosRow) :
    selectPos devId (PurgePosition devId l) = [] := by
  induction l with
  | nil => rfl
  | cons a rest ih =>
    by_cases hc : a.deviceId = devId
    · simp only [PurgePosition, if_pos hc]
      exact ih
    · simp only [PurgePosition, if_neg hc, selectPos, if_neg hc]
      exact ih

/-- Selection of position rows distributes over concatenated table
states. -/
theorem selectPos_append (devId : GoStr) (l1 l2 : List PosRow) :
    selectPos devId (l1 ++ l2) = selectPos devId l1 ++ selectPos devId l2 := by
  induction l1 with
  | nil => rfl
  | cons a rest ih =>
    by_cases hc : a.deviceId = devId
    · simp only [List.cons_append, selectPos, if_pos hc, List.append_eq, ih]
    · simp only [List.cons_append, selectPos, if_neg hc, List.append_eq, ih]

/-- C6: after two SetDeviceLocation calls for the same device, over any
prior store state, exactly one position row for the device remains, and it
carries the narrowed coordinates of the second call (and the time of the
second insert). -/
theorem setDeviceLocation_latest_only (f32 : ℚ → ℚ) (devId : GoStr) (p1 p2 : Position)
    (t1 t2 : Int) (s : List PosRow) :
    selectPos devId (SetDeviceLocation f32 devId p2 t2 (SetDeviceLocation f32 devId p1 t1 s)) =
      [⟨devId, t2, f32 p2.Latitude, f32 p2.Longitude, f32 p2.Altitude, f32 p2.Accuracy⟩] := by
  show selectPos devId (PurgePosition devId (SetDeviceLocation f32 devId p1 t1 s) ++ _) = _
  rw [selectPos_append, selectPos_purge, List.nil_append]
  simp [selectPos]

/- ---------------------------------------------------------------------
   Claims about hawk.go
   --------------------------------------------------------------------- -/

/-- C9: genHash yields the same digest for content type
application/json;charset=UTF-8 as for application/json over every body,
because the content type is truncated at the first semicolon before it
enters the hashed marshal string. -/
theorem genHash_charset_insensitive (body : GoStr) :
    genHash (gs "application/json;charset=UTF-8") body = genHash (gs "application/json") body := by
  unfold genHash
  have h : splitSemi (if gs "application/json;charset=UTF-8" = ([] : GoStr) then gs "text/plain"
        else gs "application/json;charset=UTF-8") =
      splitSemi (if gs "application/json" = ([] : GoStr) then gs "text/plain"
        else gs "application/json") := by decide
  rw [h]

/-- C4 counterexample: at concrete field values the header AsHeader renders
differs from the claimed shape with comma-space separators between all six
pairs — the source format string has no comma after the nonce pair and none
after the hash pair. -/
theorem asHeader_claim_counterexample :
    AsHeader (gs "i") (gs "t") (gs "n") (gs "e") (gs "h") (gs "m") ≠
      headerClaimShape (gs "i") (gs "t") (gs "n") (gs "e") (gs "h") (gs "m") := by decide

/-- C4 (amended): for every id, timestamp, nonce, extra, hash and
signature, AsHeader renders the six key-value pairs in order, with a
comma-space separator after the id, ts and ext pairs but only a space after
the nonce and hash pairs. -/
theorem asHeader_shape (id time nonce extra hash mac : GoStr) :
    AsHeader id time nonce extra hash mac =
      gs "Hawk id=\"" ++ id ++ gs "\", ts=\"" ++ time ++ gs "\", nonce=\"" ++ nonce ++
        gs "\" ext=\"" ++ extra ++ gs "\", hash=\"" ++ hash ++ gs "\" mac=\"" ++ mac ++ gs "\"" := by
  simp [AsHeader, goSprintf, gs]

/-- C10: ParseAuthHeader returns the no-authorization error on an absent
header and the not-hawk error on a four-byte-or-longer header of another
scheme, but a non-empty header shorter than four bytes is sliced out of
range and the call panics instead of returning a result: totality fails at
the two-byte header value. -/
theorem parseAuthHeader_short_header_panics :
    ParseAuthHeader (gs "Ha") = none ∧
    ParseAuthHeader [] = some (Except.error HawkError.NoAuth) ∧
    ParseAuthHeader (gs "Basic abc") = some (Except.error HawkError.NotHawkAuth) :=
  ⟨by decide, by decide, by decide⟩
